import Mathlib

/-!
Shallow embedding of the per-account session supervisor and remote-entity
cache of `mautrix_googlechat/user.py` (class `User`), together with proofs
about its reconnect/backoff loop, stop semantics, initial synchronization,
post-connect bootstrap, event routing and the user/group caches.

Machine integers of the source are modelled as `Nat`; Python's
`int(x * 1.5)` on a nonnegative integer `x` is `x * 3 / 2` (truncating
division); wall-clock readings of `time.time()` are modelled as the `Nat`
timestamps at which the supervisor observes each disconnect.
-/

/-- Bridge state events used by `user.py` (`BridgeStateEvent` members that the
supervisor and bootstrap code push). -/
inductive BridgeStateEvent where
  | transientDisconnect
  | unknownError
  | backfilling
  | connected
  | badCredentials
  deriving DecidableEq, Repr

/-- The supervisor's backoff state: local variables `backoff`,
`last_disconnection` and `state_event` of `User.start` (user.py lines
229-234). -/
structure BackoffState where
  backoff : Nat
  lastDisconnection : Nat
  stateEvent : BridgeStateEvent
  deriving DecidableEq, Repr

/-- Initial values set at the top of `User.start`: `last_disconnection = 0`,
`backoff = 4`, `state_event = TRANSIENT_DISCONNECT` (user.py lines 230-233). -/
def initBackoff : BackoffState :=
  { backoff := 4, lastDisconnection := 0, stateEvent := .transientDisconnect }

/-- The quiet-period threshold `backoff_reset_in_seconds = 60`
(user.py line 232). -/
def backoffResetInSeconds : Nat := 60

/-- One pass through the backoff-update block of `User.start` (user.py lines
250-259), at a disconnect observed at wall-clock time `now`:
`if last_disconnection + backoff_reset_in_seconds < time.time(): backoff = 4;
state_event = TRANSIENT_DISCONNECT else: backoff = int(backoff * 1.5);
if backoff > 60: state_event = UNKNOWN_ERROR`, then
`last_disconnection = time.time()`. -/
def backoffStep (s : BackoffState) (now : Nat) : BackoffState :=
  if s.lastDisconnection + backoffResetInSeconds < now then
    { backoff := 4, lastDisconnection := now, stateEvent := .transientDisconnect }
  else
    let b := s.backoff * 3 / 2
    { backoff := b, lastDisconnection := now,
      stateEvent := if 60 < b then .unknownError else s.stateEvent }

/-- Run the backoff-update block once per disconnect, collecting the delay
slept before each reconnect attempt (`await asyncio.sleep(backoff)`,
user.py line 261). -/
def backoffRunAux (s : BackoffState) : List Nat → List Nat
  | [] => []
  | t :: ts =>
    let s' := backoffStep s t
    s'.backoff :: backoffRunAux s' ts

/-- The sequence of backoff delays produced by a run of `User.start` whose
disconnects are observed at the given wall-clock times. -/
def backoffDelays (ts : List Nat) : List Nat :=
  backoffRunAux initBackoff ts

/-- The backoff value after `n` consecutive disconnects that all fall inside
the quiet period (pure iteration of `backoff = int(backoff * 1.5)` from the
initial value 4). -/
def quickBackoff : Nat → Nat
  | 0 => 4
  | n + 1 => quickBackoff n * 3 / 2

/-- Outcome of one `await self.client.connect()` call as seen by the
supervisor loop: either the coroutine returns cleanly or it raises an
exception (modelled by an error code). -/
inductive ConnectOutcome where
  | cleanReturn
  | failure (e : Nat)
  deriving DecidableEq, Repr

/-- What one iteration of the `while True` loop in `User.start` does after
`connect()` ends: either the loop returns (terminates) or it schedules
exactly one retry after sleeping the given delay, carrying the updated
backoff state. -/
inductive LoopResult where
  | terminated
  | retryAfter (delay : Nat) (next : BackoffState)
  deriving DecidableEq, Repr

/-- One iteration of the supervisor loop body (user.py lines 235-261).
`flag` is the value of `self._intentional_disconnect` at the moment
`connect()` returns.  On a clean return with the flag set the loop returns;
on a clean return without the flag, and on any raised exception (whatever the
flag), the backoff block runs and the loop sleeps `backoff` seconds before
retrying. -/
def loopIteration (flag : Bool) (outcome : ConnectOutcome) (s : BackoffState)
    (now : Nat) : LoopResult :=
  match outcome with
  | .cleanReturn =>
    if flag then .terminated
    else
      let s' := backoffStep s now
      .retryAfter s'.backoff s'
  | .failure _ =>
    let s' := backoffStep s now
    .retryAfter s'.backoff s'

/-- Primitive observable actions of the supervisor and of `User.stop`,
used to state ordering properties. -/
inductive SupAction where
  | callConnect
  | checkFlag
  | setFlagTrue
  | requestDisconnect
  | scheduleRetry (delay : Nat)
  | terminateLoop
  deriving DecidableEq, Repr

/-- The action trace of `User.stop` (user.py lines 263-266): when a client
exists, `self._intentional_disconnect = True` is executed before
`await self.client.disconnect()`; with no client nothing happens. -/
def stopTrace (clientPresent : Bool) : List SupAction :=
  if clientPresent then [.setFlagTrue, .requestDisconnect] else []

/-- The action trace of one supervisor-loop iteration: `connect()` is awaited
first (line 237); on a clean return the flag is checked (line 239) and the
loop either terminates or schedules a retry; on an exception no flag check
happens before the retry is scheduled. -/
def loopIterationTrace (flag : Bool) (outcome : ConnectOutcome)
    (s : BackoffState) (now : Nat) : List SupAction :=
  SupAction.callConnect ::
    match outcome with
    | .cleanReturn =>
      SupAction.checkFlag ::
        (if flag then [SupAction.terminateLoop]
         else [SupAction.scheduleRetry (backoffStep s now).backoff])
    | .failure _ => [SupAction.scheduleRetry (backoffStep s now).backoff]

/-- External input to one iteration of the supervisor loop of a given
`start()` run: whether `stop()` was invoked while this `connect()` was in
flight, and how `connect()` ended. -/
structure IterInput where
  stopDuring : Bool
  outcome : ConnectOutcome
  deriving DecidableEq, Repr

/-- Iterate the supervisor loop over a list of per-iteration inputs, keeping
track of `self._intentional_disconnect` (`flag`): a `stop()` during an
iteration sets it, and it stays set until the next `start()`.  Returns
`some k` when the loop returns at iteration index `k` (clean `connect()`
return with the flag set), `none` when the inputs are exhausted with the
loop still running. -/
def loopTermination (flag : Bool) (k : Nat) : List IterInput → Option Nat
  | [] => none
  | inp :: rest =>
    let flag' := flag || inp.stopDuring
    match inp.outcome with
    | .cleanReturn => if flag' then some k else loopTermination flag' (k + 1) rest
    | .failure _ => loopTermination flag' (k + 1) rest

/-- A run of `User.start`: whatever the value `initialFlag` that
`self._intentional_disconnect` held before the call (e.g. `True` left over
from a `stop()` of a previous run), line 234 assigns it `False` before the
loop is entered, so the run only depends on the per-iteration inputs. -/
def startRun (initialFlag : Bool) (inputs : List IterInput) : Option Nat :=
  loopTermination false 0 inputs

/-- One entry of the paginated world response used by `User.sync`
(user.py lines 395-421): its conversation id, its `sort_timestamp`, and
whether the portal looked up for it already has a Matrix room
(`portal.mxid` set, i.e. a local mirror exists). -/
structure WorldItemLite where
  convId : Nat
  sortTimestamp : Nat
  hasMxid : Bool
  deriving DecidableEq, Repr

/-- Calls `User.sync` makes for one conversation: `portal.update_matrix_room`
or `portal.create_matrix_room`. -/
inductive SyncAction where
  | update (convId : Nat)
  | create (convId : Nat)
  deriving DecidableEq, Repr

/-- `items.sort(key=lambda item: item.sort_timestamp, reverse=True)`
(user.py line 406): stable sort, descending by `sort_timestamp`. -/
def sortWorldItems (items : List WorldItemLite) : List WorldItemLite :=
  items.mergeSort (fun a b => decide (b.sortTimestamp ≤ a.sortTimestamp))

/-- The `for index, item in enumerate(items)` body of `User.sync` (user.py
lines 408-420): a portal with a Matrix room is updated; otherwise a room is
created only while `index < max_sync`. -/
def syncLoop (idx maxSync : Nat) : List WorldItemLite → List SyncAction
  | [] => []
  | it :: rest =>
    (if it.hasMxid then [SyncAction.update it.convId]
     else if idx < maxSync then [SyncAction.create it.convId]
     else []) ++ syncLoop (idx + 1) maxSync rest

/-- `User.sync`: sort the fetched world items descending by
`sort_timestamp`, then walk them with their index, updating existing mirrors
and creating rooms for the first `maxSync` (`bridge.initial_chat_sync`)
conversations that lack one. -/
def sync (items : List WorldItemLite) (maxSync : Nat) : List SyncAction :=
  syncLoop 0 maxSync (sortWorldItems items)

/-- Conversation ids for which `sync` called `create_matrix_room`. -/
def createdIds (acts : List SyncAction) : List Nat :=
  acts.filterMap fun a =>
    match a with
    | .create c => some c
    | .update _ => none

/-- Conversation ids for which `sync` called `update_matrix_room`. -/
def updatedIds (acts : List SyncAction) : List Nat :=
  acts.filterMap fun a =>
    match a with
    | .update c => some c
    | .create _ => none

/-- Outcomes of the three guarded (try/except) awaits of
`User.on_connect_later` (user.py lines 353-382): whether `get_self()`
(own-identity resolution), the custom-puppet auto-enable step, and `sync()`
succeed. -/
structure PostConnectOutcome where
  getSelfOk : Bool
  puppetOk : Bool
  syncOk : Bool
  deriving DecidableEq, Repr

/-- `User.on_connect_later`: on a `get_self()` failure the exception is
caught, "Failed to get own info" is logged and the coroutine returns at once,
pushing no bridge state.  Otherwise `BACKFILLING` is pushed, the puppet and
sync steps run with their exceptions caught and logged, and `CONNECTED` is
pushed at the end.  Returns the pushed bridge states and the error logs. -/
def onConnectLater (o : PostConnectOutcome) :
    List BridgeStateEvent × List String :=
  if o.getSelfOk then
    ([BridgeStateEvent.backfilling, BridgeStateEvent.connected],
      (if o.puppetOk then [] else ["Failed to automatically enable custom puppet"]) ++
        (if o.syncOk then [] else ["Failed to sync conversations and users"]))
  else
    ([], ["Failed to get own info"])

/-- `googlechat.Event.EventType` as far as the router inspects it: only
`MESSAGE_UPDATED` is compared against (user.py line 440); every other tag is
kept abstract. -/
inductive GCEventType where
  | messageUpdated
  | otherEventType (code : Nat)
  deriving DecidableEq, Repr

/-- The `evt.body` oneof as inspected by `User.on_stream_event` via
`HasField` (user.py lines 438-453); payloads are abstract.  `unrecognized`
stands for a body with none of the five recognized fields. -/
inductive GCEventBody where
  | messagePosted (message : Nat)
  | messageReaction (reaction : Nat)
  | messageDeleted (deletion : Nat)
  | readReceiptChanged (receipts : Nat)
  | groupViewed (viewTime : Nat)
  | unrecognized (shape : Nat)
  deriving DecidableEq, Repr

/-- A `googlechat.Event` as far as `User.on_stream_event` inspects it:
`evt.group_id` (absent when falsy), `evt.type` and `evt.body`. -/
structure GCEvent where
  groupId : Option Nat
  type : GCEventType
  body : GCEventBody
  deriving DecidableEq, Repr

/-- The portal-handler invocations `User.on_stream_event` can dispatch
(user.py lines 440-451). -/
inductive PortalDispatch where
  | handleEdit (message : Nat)
  | handleMessage (message : Nat)
  | handleReaction (reaction : Nat)
  | handleRedaction (deletion : Nat)
  | handleReadReceipts (receipts : Nat)
  | markRead (viewTime : Nat)
  deriving DecidableEq, Repr

/-- `User.on_stream_event` (user.py lines 432-453): an event without a
`group_id` returns immediately; otherwise the body is classified by shape,
`MESSAGE_UPDATED` message-posted events go to the edit handler, and an
unrecognized shape is logged (`"Unhandled event type ..."`, the returned
Bool) with no dispatch.  The function never raises. -/
def on_stream_event (evt : GCEvent) : List PortalDispatch × Bool :=
  match evt.groupId with
  | none => ([], false)
  | some _ =>
    match evt.body with
    | .messagePosted m =>
      (if evt.type = .messageUpdated then [.handleEdit m] else [.handleMessage m], false)
    | .messageReaction r => ([.handleReaction r], false)
    | .messageDeleted d => ([.handleRedaction d], false)
    | .readReceiptChanged r => ([.handleReadReceipts r], false)
    | .groupViewed t => ([.markRead t], false)
    | .unrecognized _ => ([], true)

/-- A `googlechat.User` profile as cached by `User.get_users`: keyed by
`user.user_id.id`, carrying an abstract payload. -/
structure GCUser where
  userId : Nat
  payload : Nat
  deriving DecidableEq, Repr

/-- A `googlechat.GetGroupResponse` as cached by `User.get_group`. -/
structure GetGroupResponse where
  payload : Nat
  deriving DecidableEq, Repr

/-- Errors a cache call can end in: a raised `KeyError` while building the
result list, or a propagated failure of the remote fetch. -/
inductive CacheErr where
  | keyError (k : Nat)
  | fetchError (e : Nat)
  deriving DecidableEq, Repr

/-- `[self.users[user_id] for user_id in ids]` (user.py line 321): looks each
requested id up in the cache, raising `KeyError` at the first id that is not
present. -/
def buildUserList (users : List (Nat × GCUser)) : List Nat → Except CacheErr (List GCUser)
  | [] => .ok []
  | x :: xs =>
    match users.lookup x with
    | some u => (buildUserList users xs).map (fun rest => u :: rest)
    | none => .error (.keyError x)

/-- Result of one sequential `User.get_users` call: the cache afterwards,
the ids of the batched fetch if one was issued, and the returned list or the
raised error. -/
structure GetUsersOutcome where
  newUsers : List (Nat × GCUser)
  fetchIssued : Option (List Nat)
  result : Except CacheErr (List GCUser)
  deriving Repr

/-- Sequential model of `User.get_users` (user.py lines 308-321).
`req_ids` keeps the requested ids missing from `self.users`; if nonempty, the
batched fetch runs (its outcome is the `fetchResult` parameter): a raised
fetch error propagates with the cache untouched, while returned members are
stored under `member.user.user_id.id` (later members shadow earlier ones,
like repeated dict assignment).  The result list is then built from the
cache. -/
def get_users (users : List (Nat × GCUser)) (ids : List Nat)
    (fetchResult : Except CacheErr (List GCUser)) : GetUsersOutcome :=
  let req := ids.filter fun x => (users.lookup x).isNone
  if req.isEmpty then
    { newUsers := users, fetchIssued := none, result := buildUserList users ids }
  else
    match fetchResult with
    | .error e => { newUsers := users, fetchIssued := some req, result := .error e }
    | .ok members =>
      let users' := members.foldl (fun c m => (m.userId, m) :: c) users
      { newUsers := users', fetchIssued := some req, result := buildUserList users' ids }

/-- Result of one sequential `User.get_group` call. -/
structure GetGroupOutcome where
  newGroups : List (Nat × GetGroupResponse)
  fetchIssued : Bool
  result : Except CacheErr GetGroupResponse
  deriving Repr

/-- Sequential model of `User.get_group` (user.py lines 323-351): a cached
`conv_id` is returned at once; otherwise the fetch runs (outcome in
`fetchResult`): a raised error propagates with the cache untouched, a
response is stored under `conv_id` and returned. -/
def get_group (groups : List (Nat × GetGroupResponse)) (convId : Nat)
    (fetchResult : Except CacheErr GetGroupResponse) : GetGroupOutcome :=
  match groups.lookup convId with
  | some resp => { newGroups := groups, fetchIssued := false, result := .ok resp }
  | none =>
    match fetchResult with
    | .error e => { newGroups := groups, fetchIssued := true, result := .error e }
    | .ok resp =>
      { newGroups := (convId, resp) :: groups, fetchIssued := true, result := .ok resp }

/-- Program counter of one concurrent `User.get_users` call (one coroutine),
as staged by the suspension points of user.py lines 308-321: before
`async with self.users_lock`; inside the critical section with `req_ids`
computed; with the batched fetch awaited (in flight, lock still held); with
the response stored into `self.users`; and finished (lock released). -/
inductive UserThreadPc where
  | ustart (ids : List Nat)
  | inCS (reqIds : List Nat)
  | fetchInFlight (reqIds : List Nat)
  | populated
  | ufinished
  deriving DecidableEq, Repr

/-- Whether a `get_users` coroutine currently holds `self.users_lock`. -/
def holdsUsersLock : UserThreadPc → Bool
  | .inCS _ => true
  | .fetchInFlight _ => true
  | .populated => true
  | _ => false

/-- Global state of one Session's user cache under concurrent `get_users`
calls: the holder of `users_lock` (if any), the set of cached user ids
(profile values are irrelevant here), the coroutines, and the log of batched
fetches issued so far (issuing coroutine, requested ids). -/
structure UserCacheSys where
  lock : Option Nat
  cacheKeys : List Nat
  threads : List UserThreadPc
  history : List (Nat × List Nat)

/-- Interleaving semantics of concurrent `User.get_users` calls.  `acquire`
takes the free lock and computes `req_ids` as the requested ids not yet
cached (line 310); `startFetch` issues the batched fetch when `req_ids` is
nonempty (line 314); `endFetch` stores the members (lines 319-320);
`skipFetch` covers an empty `req_ids`, exiting the `async with` block with no
fetch; `release` exits the block after populating. -/
inductive UStep : UserCacheSys → UserCacheSys → Prop where
  | acquire (s : UserCacheSys) (i : Nat) (ids : List Nat) :
      s.threads[i]? = some (.ustart ids) → s.lock = none →
      UStep s { s with lock := some i,
                       threads := s.threads.set i
                         (.inCS (ids.filter fun x => decide (x ∉ s.cacheKeys))) }
  | startFetch (s : UserCacheSys) (i : Nat) (r : List Nat) :
      s.threads[i]? = some (.inCS r) → r ≠ [] →
      UStep s { s with threads := s.threads.set i (.fetchInFlight r),
                       history := s.history ++ [(i, r)] }
  | endFetch (s : UserCacheSys) (i : Nat) (r : List Nat) :
      s.threads[i]? = some (.fetchInFlight r) →
      UStep s { s with cacheKeys := s.cacheKeys ++ r,
                       threads := s.threads.set i .populated }
  | skipFetch (s : UserCacheSys) (i : Nat) :
      s.threads[i]? = some (.inCS []) →
      UStep s { s with lock := none, threads := s.threads.set i .ufinished }
  | release (s : UserCacheSys) (i : Nat) :
      s.threads[i]? = some .populated →
      UStep s { s with lock := none, threads := s.threads.set i .ufinished }

/-- Initial state: the lock is free, the cache holds `cache0`, one coroutine
per requested id list, no fetch issued yet. -/
def initUserSys (cache0 : List Nat) (idss : List (List Nat)) : UserCacheSys :=
  { lock := none, cacheKeys := cache0, threads := idss.map .ustart, history := [] }

/-- Reachability under the `get_users` interleaving semantics. -/
def UReachable (s0 s : UserCacheSys) : Prop :=
  Relation.ReflTransGen UStep s0 s

/-- Inductive invariant of the concurrent user cache: (1) a coroutine in the
critical section owns the lock; (2) `req_ids` of a coroutine in the critical
section is disjoint from the cache; (3) every issued fetch is either still
in flight at its coroutine or fully cached; (4) distinct fetches requested
disjoint id sets. -/
def UserInv (s : UserCacheSys) : Prop :=
  (∀ i pc, s.threads[i]? = some pc → holdsUsersLock pc = true → s.lock = some i) ∧
  (∀ (i : Nat) (r : List Nat), (s.threads[i]? = some (UserThreadPc.inCS r) ∨
      s.threads[i]? = some (UserThreadPc.fetchInFlight r)) →
    ∀ x ∈ r, x ∉ s.cacheKeys) ∧
  (∀ ev ∈ s.history,
    s.threads[ev.1]? = some (UserThreadPc.fetchInFlight ev.2) ∨
      ∀ x ∈ ev.2, x ∈ s.cacheKeys) ∧
  List.Pairwise (fun a b => ∀ x ∈ a.2, x ∉ b.2) s.history

/-- Program counter of one concurrent `User.get_group` call (user.py lines
323-351): the lock-free fast path (line 331) either returns a cached entry or
falls through to wait on `groups_lock`; inside the critical section the
membership re-check (lines 337-340) returns or the fetch runs; the response
is stored (line 350) and the lock released. -/
inductive GroupThreadPc where
  | gstart (convId : Nat)
  | waitingLock (convId : Nat)
  | ginCS (convId : Nat)
  | gfetchInFlight (convId : Nat)
  | gpopulated
  | gfinished
  deriving DecidableEq, Repr

/-- Whether a `get_group` coroutine currently holds `self.groups_lock`. -/
def holdsGroupsLock : GroupThreadPc → Bool
  | .ginCS _ => true
  | .gfetchInFlight _ => true
  | .gpopulated => true
  | _ => false

/-- Global state of one Session's group cache under concurrent `get_group`
calls; `history` logs the fetches issued (coroutine, conversation id). -/
structure GroupCacheSys where
  lock : Option Nat
  cacheKeys : List Nat
  threads : List GroupThreadPc
  history : List (Nat × Nat)

/-- Interleaving semantics of concurrent `User.get_group` calls, staged at
its suspension points: the unlocked fast-path check, lock acquisition, the
locked re-check ("Try again in case the fetch succeeded while waiting for
the lock"), the fetch, the store, and the lock release. -/
inductive GStep : GroupCacheSys → GroupCacheSys → Prop where
  | fastHit (s : GroupCacheSys) (i : Nat) (c : Nat) :
      s.threads[i]? = some (.gstart c) → c ∈ s.cacheKeys →
      GStep s { s with threads := s.threads.set i .gfinished }
  | fastMiss (s : GroupCacheSys) (i : Nat) (c : Nat) :
      s.threads[i]? = some (.gstart c) → c ∉ s.cacheKeys →
      GStep s { s with threads := s.threads.set i (.waitingLock c) }
  | gacquire (s : GroupCacheSys) (i : Nat) (c : Nat) :
      s.threads[i]? = some (.waitingLock c) → s.lock = none →
      GStep s { s with lock := some i, threads := s.threads.set i (.ginCS c) }
  | lockedHit (s : GroupCacheSys) (i : Nat) (c : Nat) :
      s.threads[i]? = some (.ginCS c) → c ∈ s.cacheKeys →
      GStep s { s with lock := none, threads := s.threads.set i .gfinished }
  | gstartFetch (s : GroupCacheSys) (i : Nat) (c : Nat) :
      s.threads[i]? = some (.ginCS c) → c ∉ s.cacheKeys →
      GStep s { s with threads := s.threads.set i (.gfetchInFlight c),
                       history := s.history ++ [(i, c)] }
  | gendFetch (s : GroupCacheSys) (i : Nat) (c : Nat) :
      s.threads[i]? = some (.gfetchInFlight c) →
      GStep s { s with cacheKeys := s.cacheKeys ++ [c],
                       threads := s.threads.set i .gpopulated }
  | grelease (s : GroupCacheSys) (i : Nat) :
      s.threads[i]? = some .gpopulated →
      GStep s { s with lock := none, threads := s.threads.set i .gfinished }

/-- Initial state of the concurrent group cache. -/
def initGroupSys (cache0 : List Nat) (convs : List Nat) : GroupCacheSys :=
  { lock := none, cacheKeys := cache0, threads := convs.map .gstart, history := [] }

/-- Reachability under the `get_group` interleaving semantics. -/
def GReachable (s0 s : GroupCacheSys) : Prop :=
  Relation.ReflTransGen GStep s0 s

/-- Inductive invariant of the concurrent group cache, mirroring `UserInv`. -/
def GroupInv (s : GroupCacheSys) : Prop :=
  (∀ i pc, s.threads[i]? = some pc → holdsGroupsLock pc = true → s.lock = some i) ∧
  (∀ (i c : Nat), s.threads[i]? = some (GroupThreadPc.gfetchInFlight c) → c ∉ s.cacheKeys) ∧
  (∀ ev ∈ s.history,
    s.threads[ev.1]? = some (GroupThreadPc.gfetchInFlight ev.2) ∨ ev.2 ∈ s.cacheKeys) ∧
  List.Pairwise (fun a b => a.2 ≠ b.2) s.history

/-! ## Theorems -/

theorem backoff_step_quick (s : BackoffState) (now : Nat)
    (h : ¬ s.lastDisconnection + backoffResetInSeconds < now) :
    (backoffStep s now).backoff = s.backoff * 3 / 2 := by
  simp [backoffStep, h]

theorem backoff_step_reset (s : BackoffState) (now : Nat)
    (h : s.lastDisconnection + backoffResetInSeconds < now) :
    backoffStep s now =
      { backoff := 4, lastDisconnection := now, stateEvent := .transientDisconnect } := by
  simp [backoffStep, h]

theorem quickBackoff_lower_bound (n : Nat) : 2 * n + 4 ≤ quickBackoff n := by
  induction n with
  | zero => simp [quickBackoff]
  | succ n ih =>
    have : quickBackoff (n + 1) = quickBackoff n * 3 / 2 := rfl
    omega

theorem backoffRunAux_quick_growth (m : Nat) :
    ∀ (b : Nat) (e : BridgeStateEvent), 4 ≤ b →
      ∃ d ∈ backoffRunAux { backoff := b, lastDisconnection := 0, stateEvent := e }
          (List.replicate (m + 1) 0), b + 2 * (m + 1) ≤ d := by
  induction m with
  | zero =>
    intro b e hb
    refine ⟨b * 3 / 2, ?_, by omega⟩
    simp [backoffRunAux, backoffStep, backoffResetInSeconds]
  | succ m ih =>
    intro b e hb
    have hrep : List.replicate (m + 1 + 1) 0 = 0 :: List.replicate (m + 1) 0 := rfl
    have hstep : backoffStep { backoff := b, lastDisconnection := 0, stateEvent := e } 0 =
        { backoff := b * 3 / 2, lastDisconnection := 0,
          stateEvent := if 60 < b * 3 / 2 then .unknownError else e } := by
      simp [backoffStep, backoffResetInSeconds]
    obtain ⟨d, hd, hge⟩ := ih (b * 3 / 2) (if 60 < b * 3 / 2 then .unknownError else e) (by omega)
    refine ⟨d, ?_, by omega⟩
    rw [hrep]
    simp only [backoffRunAux, hstep]
    exact List.mem_cons_of_mem _ hd

/-- Claim C1, counterexample: the spec's example is false on the code.  With
disconnects observed at times 0, 2 and 5, `User.start` produces delays
6, 9, 13 and not 4, 6, 9: `last_disconnection` starts at 0, so the very
first disconnect at t = 0 fails the reset test `0 + 60 < 0` and multiplies
the initial delay instead of keeping it. -/
theorem c1_backoff_example_refuted :
    backoffDelays [0, 2, 5] ≠ [4, 6, 9] ∧ backoffDelays [0, 2, 5] = [6, 9, 13] := by
  decide

/-- Claim C1 (amended): the backoff delay variable starts at 4 with the
last-disconnection origin at 0; a disconnect more than 60 time units after
the previous one resets the delay to 4 and classifies the event as
transient-disconnect; a disconnect within 60 time units of the previous one
(including the first disconnect when it is within 60 of the origin 0) sets
the delay to int(delay * 1.5), which never decreases it, and once the delay
exceeds 60 the classification becomes unknown-error.  Disconnects at
t = 100, 102, 105 yield delays 4, 6, 9, and a subsequent disconnect at
t = 300 yields delay 4. -/
theorem c1_backoff_policy :
    (initBackoff.backoff = 4 ∧ initBackoff.lastDisconnection = 0) ∧
    (∀ (s : BackoffState) (now : Nat), s.lastDisconnection + backoffResetInSeconds < now →
      backoffStep s now =
        { backoff := 4, lastDisconnection := now, stateEvent := .transientDisconnect }) ∧
    (∀ (s : BackoffState) (now : Nat), ¬ s.lastDisconnection + backoffResetInSeconds < now →
      (backoffStep s now).backoff = s.backoff * 3 / 2 ∧
      s.backoff ≤ (backoffStep s now).backoff ∧
      (60 < (backoffStep s now).backoff →
        (backoffStep s now).stateEvent = .unknownError)) ∧
    backoffDelays [100, 102, 105] = [4, 6, 9] ∧
    backoffDelays [100, 102, 105, 300] = [4, 6, 9, 4] := by
  refine ⟨⟨rfl, rfl⟩, ?_, ?_, by decide, by decide⟩
  · intro s now h
    exact backoff_step_reset s now h
  · intro s now h
    have hq := backoff_step_quick s now h
    refine ⟨hq, by omega, ?_⟩
    intro hgt
    rw [hq] at hgt
    simp [backoffStep, h, Nat.not_lt.mp, hgt]

/-- Witness for `c1_backoff_policy` at concrete inputs: a disconnect at
t = 200 after a previous one at t = 5 resets the delay of 9 to 4, and a
disconnect at t = 2 after one at t = 0 grows the delay 6 to 9. -/
theorem c1_backoff_policy_witness :
    backoffStep { backoff := 9, lastDisconnection := 5,
                  stateEvent := .transientDisconnect } 200 =
      { backoff := 4, lastDisconnection := 200, stateEvent := .transientDisconnect } ∧
    (backoffStep { backoff := 6, lastDisconnection := 0,
                   stateEvent := .transientDisconnect } 2).backoff = 6 * 3 / 2 :=
  ⟨c1_backoff_policy.2.1 _ 200 (by decide),
   (c1_backoff_policy.2.2.1 _ 2 (by decide)).1⟩

/-- Claim C8, counterexample: there is no fixed bound on the backoff delay.
For every candidate bound there is a run of consecutive disconnects inside
the quiet period whose delay exceeds it: `backoff = int(backoff * 1.5)` is
applied without any cap (user.py line 254). -/
theorem c8_backoff_cap_refuted :
    ¬ ∃ B : Nat, ∀ (ts : List Nat), ∀ d ∈ backoffDelays ts, d ≤ B := by
  rintro ⟨B, hB⟩
  obtain ⟨d, hd, hge⟩ :=
    backoffRunAux_quick_growth B 4 .transientDisconnect (le_refl 4)
  have hle := hB (List.replicate (B + 1) 0) d hd
  omega

/-- Claim C8 (amended): the backoff delay between reconnect attempts is not
capped: for every bound `B`, `B + 1` consecutive disconnects inside the
quiet period drive the delay above `B`.  Once the delay exceeds 60 only the
severity classification changes, becoming unknown-error. -/
theorem c8_backoff_unbounded :
    (∀ B : Nat, ∃ d ∈ backoffDelays (List.replicate (B + 1) 0), B < d) ∧
    (∀ (s : BackoffState) (now : Nat), ¬ s.lastDisconnection + backoffResetInSeconds < now →
      60 < (backoffStep s now).backoff →
      (backoffStep s now).stateEvent = .unknownError) := by
  constructor
  · intro B
    obtain ⟨d, hd, hge⟩ :=
      backoffRunAux_quick_growth B 4 .transientDisconnect (le_refl 4)
    exact ⟨d, hd, by omega⟩
  · intro s now h hgt
    have hq := backoff_step_quick s now h
    rw [hq] at hgt
    simp [backoffStep, h, hgt]

/-- Witness for `c8_backoff_unbounded`: a run of 11 quick disconnects pushes
the delay above 10, and the step from a 60-second delay inside the quiet
period escalates the classification to unknown-error. -/
theorem c8_backoff_unbounded_witness :
    (∃ d ∈ backoffDelays (List.replicate 11 0), 10 < d) ∧
    (backoffStep { backoff := 60, lastDisconnection := 50,
                   stateEvent := .transientDisconnect } 60).stateEvent = .unknownError :=
  ⟨c8_backoff_unbounded.1 10,
   c8_backoff_unbounded.2 _ 60 (by decide) (by decide)⟩

theorem loopTermination_stop_needed :
    ∀ (inputs : List IterInput) (flag : Bool) (k0 k : Nat),
      loopTermination flag k0 inputs = some k →
      k0 ≤ k ∧ (flag = true ∨
        ∃ j : Nat, k0 + j ≤ k ∧
          ∃ inp, inputs[j]? = some inp ∧ inp.stopDuring = true) := by
  intro inputs
  induction inputs with
  | nil => intro flag k0 k h; simp [loopTermination] at h
  | cons inp rest ih =>
    intro flag k0 k h
    simp only [loopTermination] at h
    cases houtcome : inp.outcome with
    | cleanReturn =>
      rw [houtcome] at h
      by_cases hflag : (flag || inp.stopDuring) = true
      · rw [if_pos hflag] at h
        have hk : k0 = k := by
          injection h with h
        rcases Bool.or_eq_true_iff.mp hflag with hf | hs
        · exact ⟨by omega, Or.inl hf⟩
        · exact ⟨by omega, Or.inr ⟨0, by omega, inp, by simp, hs⟩⟩
      · rw [if_neg hflag] at h
        obtain ⟨hle, hrest⟩ := ih (flag || inp.stopDuring) (k0 + 1) k h
        refine ⟨by omega, ?_⟩
        rcases hrest with hf | ⟨j, hj, inp2, hget, hstop⟩
        · exact absurd hf hflag
        · exact Or.inr ⟨j + 1, by omega, inp2, by simpa using hget, hstop⟩
    | failure e =>
      rw [houtcome] at h
      obtain ⟨hle, hrest⟩ := ih (flag || inp.stopDuring) (k0 + 1) k h
      refine ⟨by omega, ?_⟩
      rcases hrest with hf | ⟨j, hj, inp2, hget, hstop⟩
      · rcases Bool.or_eq_true_iff.mp hf with hf | hs
        · exact Or.inl hf
        · exact Or.inr ⟨0, by omega, inp, by simp, hs⟩
      · exact Or.inr ⟨j + 1, by omega, inp2, by simpa using hget, hstop⟩

/-- Claim C3: when `stop()` has set the intentional-disconnect flag and
`connect()` returns cleanly, the loop terminates with no retry; on a clean
return without the flag, and on every raised failure, the loop schedules
exactly one retry after the updated backoff delay.  `stop()` sets the flag
strictly before requesting the client disconnect, and in the loop's trace the
flag check occurs exactly at the position after `connect()` returns, never
before. -/
theorem c3_stop_termination :
    (∀ (s : BackoffState) (now : Nat),
      loopIteration true .cleanReturn s now = .terminated) ∧
    (∀ (s : BackoffState) (now : Nat),
      loopIteration false .cleanReturn s now =
        .retryAfter (backoffStep s now).backoff (backoffStep s now)) ∧
    (∀ (f : Bool) (e : Nat) (s : BackoffState) (now : Nat),
      loopIteration f (.failure e) s now =
        .retryAfter (backoffStep s now).backoff (backoffStep s now)) ∧
    stopTrace true = [SupAction.setFlagTrue, SupAction.requestDisconnect] ∧
    stopTrace false = [] ∧
    (∀ (f : Bool) (o : ConnectOutcome) (s : BackoffState) (now : Nat),
      (loopIterationTrace f o s now).head? = some SupAction.callConnect ∧
      ∀ j : Nat, (loopIterationTrace f o s now)[j]? = some SupAction.checkFlag → j = 1) := by
  refine ⟨fun s now => rfl, fun s now => rfl, fun f e s now => rfl, rfl, rfl, ?_⟩
  intro f o s now
  cases o with
  | cleanReturn =>
    cases f <;>
      exact ⟨rfl, by
        intro j h
        match j with
        | 0 => simp [loopIterationTrace] at h
        | 1 => rfl
        | 2 => simp [loopIterationTrace] at h
        | n + 3 => simp [loopIterationTrace] at h⟩
  | failure e =>
    exact ⟨rfl, by
      intro j h
      match j with
      | 0 => simp [loopIterationTrace] at h
      | 1 => simp [loopIterationTrace] at h
      | n + 2 => simp [loopIterationTrace] at h⟩

/-- Witness for `c3_stop_termination` at concrete inputs. -/
theorem c3_stop_termination_witness :
    loopIteration true .cleanReturn initBackoff 100 = .terminated ∧
    (loopIterationTrace true .cleanReturn initBackoff 100).head? =
      some SupAction.callConnect :=
  ⟨c3_stop_termination.1 initBackoff 100,
   (c3_stop_termination.2.2.2.2.2 true .cleanReturn initBackoff 100).1⟩

/-- Claim C10: `start()` overwrites the intentional-disconnect flag with
`False` before entering its loop, so a run of `start` is independent of the
stale flag value; the loop terminates at iteration `k` only if `stop()` was
invoked during some iteration `j ≤ k` of this very run, and in particular a
first iteration without a `stop()` never terminates the loop. -/
theorem c10_start_resets_flag :
    (∀ (f g : Bool) (inputs : List IterInput), startRun f inputs = startRun g inputs) ∧
    (∀ (f : Bool) (inputs : List IterInput) (k : Nat), startRun f inputs = some k →
      ∃ j : Nat, j ≤ k ∧ ∃ inp, inputs[j]? = some inp ∧ inp.stopDuring = true) ∧
    (∀ (f : Bool) (inp : IterInput) (rest : List IterInput),
      inp.stopDuring = false → startRun f (inp :: rest) ≠ some 0) := by
  refine ⟨fun f g inputs => rfl, ?_, ?_⟩
  · intro f inputs k h
    obtain ⟨-, hrest⟩ := loopTermination_stop_needed inputs false 0 k h
    rcases hrest with hf | ⟨j, hj, inp, hget, hstop⟩
    · exact absurd hf (by simp)
    · exact ⟨j, by omega, inp, hget, hstop⟩
  · intro f inp rest hstop h
    obtain ⟨-, hrest⟩ := loopTermination_stop_needed (inp :: rest) false 0 0 h
    rcases hrest with hf | ⟨j, hj, inp2, hget, hs⟩
    · simp at hf
    · have hj0 : j = 0 := by omega
      subst hj0
      have heq : inp2 = inp := by
        have h0 := hget
        simp at h0
        exact h0.symm
      rw [heq, hstop] at hs
      exact Bool.false_ne_true hs

/-- Witness for `c10_start_resets_flag`: a run whose second iteration saw a
`stop()` and then a clean `connect()` return terminates at index 1, and the
theorem recovers that `stop()`. -/
theorem c10_start_resets_flag_witness :
    ∃ j : Nat, j ≤ 1 ∧ ∃ inp,
      ([{ stopDuring := false, outcome := .failure 0 },
        { stopDuring := true, outcome := .cleanReturn }] : List IterInput)[j]? =
          some inp ∧
      inp.stopDuring = true :=
  c10_start_resets_flag.2.1 true
    ([{ stopDuring := false, outcome := .failure 0 },
      { stopDuring := true, outcome := .cleanReturn }] : List IterInput) 1 (by decide)

theorem createdIds_append (a b : List SyncAction) :
    createdIds (a ++ b) = createdIds a ++ createdIds b :=
  List.filterMap_append a b _

theorem updatedIds_append (a b : List SyncAction) :
    updatedIds (a ++ b) = updatedIds a ++ updatedIds b :=
  List.filterMap_append a b _

theorem createdIds_syncLoop :
    ∀ (l : List WorldItemLite) (idx N : Nat),
      createdIds (syncLoop idx N l) =
        ((l.take (N - idx)).filter (fun it => !it.hasMxid)).map (fun it => it.convId) := by
  intro l
  induction l with
  | nil => intro idx N; simp [syncLoop, createdIds]
  | cons it rest ih =>
    intro idx N
    rw [syncLoop, createdIds_append, ih (idx + 1) N]
    by_cases hm : it.hasMxid
    · rcases Nat.eq_zero_or_pos (N - idx) with h0 | hpos
      · have h1 : N - (idx + 1) = 0 := by omega
        simp [hm, h0, h1, createdIds]
      · obtain ⟨k, hk⟩ : ∃ k, N - idx = k + 1 := ⟨N - idx - 1, by omega⟩
        have h1 : N - (idx + 1) = k := by omega
        simp [hm, hk, h1, createdIds]
    · by_cases hlt : idx < N
      · obtain ⟨k, hk⟩ : ∃ k, N - idx = k + 1 := ⟨N - idx - 1, by omega⟩
        have h1 : N - (idx + 1) = k := by omega
        simp [hm, hlt, hk, h1, createdIds]
      · have h0 : N - idx = 0 := by omega
        have h1 : N - (idx + 1) = 0 := by omega
        simp [hm, hlt, h0, h1, createdIds]

theorem updatedIds_syncLoop :
    ∀ (l : List WorldItemLite) (idx N : Nat),
      updatedIds (syncLoop idx N l) =
        (l.filter (fun it => it.hasMxid)).map (fun it => it.convId) := by
  intro l
  induction l with
  | nil => intro idx N; simp [syncLoop, updatedIds]
  | cons it rest ih =>
    intro idx N
    rw [syncLoop, updatedIds_append, ih (idx + 1) N]
    by_cases hm : it.hasMxid
    · simp [hm, updatedIds]
    · by_cases hlt : idx < N <;> simp [hm, hlt, updatedIds]

theorem sortWorldItems_sorted (items : List WorldItemLite) :
    List.Pairwise (fun a b : WorldItemLite => b.sortTimestamp ≤ a.sortTimestamp)
      (sortWorldItems items) := by
  have h := @List.sorted_mergeSort WorldItemLite
    (fun a b : WorldItemLite => decide (b.sortTimestamp ≤ a.sortTimestamp))
    (fun a b c hab hbc => by
      simp only [decide_eq_true_eq] at hab hbc ⊢
      omega)
    (fun a b => by
      simp only [Bool.or_eq_true, decide_eq_true_eq]
      omega)
    items
  refine h.imp ?_
  intro a b hab
  simpa using hab

theorem sortWorldItems_perm (items : List WorldItemLite) :
    (sortWorldItems items).Perm items :=
  List.mergeSort_perm items _

/-- Claim C2: `User.sync` processes the fetched conversations in descending
`sort_timestamp` order (a permutation of the fetched list); it creates a
local mirror for exactly those conversations among the first `N` of that
order that have no existing mirror, and it updates (exactly once, never
creating) every conversation that already has one, for every `N` and every
conversation list. -/
theorem c2_initial_sync :
    ∀ (items : List WorldItemLite) (N : Nat),
      createdIds (sync items N) =
        (((sortWorldItems items).take N).filter (fun it => !it.hasMxid)).map
          (fun it => it.convId) ∧
      updatedIds (sync items N) =
        ((sortWorldItems items).filter (fun it => it.hasMxid)).map
          (fun it => it.convId) ∧
      List.Pairwise (fun a b : WorldItemLite => b.sortTimestamp ≤ a.sortTimestamp)
        (sortWorldItems items) ∧
      (sortWorldItems items).Perm items := by
  intro items N
  refine ⟨?_, ?_, sortWorldItems_sorted items, sortWorldItems_perm items⟩
  · rw [sync, createdIds_syncLoop]
    simp
  · rw [sync, updatedIds_syncLoop]

/-- Claim C4, counterexample: in the execution where the own-identity
resolution step (`get_self()`) fails while the sync step would succeed,
`on_connect_later` returns early (user.py line 358) and pushes no bridge
state at all, so the "connected" status is never reported. -/
theorem c4_connected_after_identity_failure_refuted :
    (onConnectLater { getSelfOk := false, puppetOk := true, syncOk := true }).1 = [] ∧
    BridgeStateEvent.connected ∉
      (onConnectLater { getSelfOk := false, puppetOk := true, syncOk := true }).1 := by
  decide

/-- Claim C4 (amended): during the post-connect bootstrap, failures of the
best-effort custom-puppet (enhanced identity) step and of the sync step are
caught and logged and do not prevent the "connected" status from being
reported; a failure of the own-identity resolution step (`get_self`),
however, is caught and logged but aborts the sequence before any status is
reported, so "connected" is reported exactly when `get_self` succeeds.
Exceptions of the three guarded steps never propagate out of the sequence,
which returns a value on every outcome. -/
theorem c4_post_connect_bootstrap :
    (∀ o : PostConnectOutcome, o.getSelfOk = true →
      (onConnectLater o).1 = [BridgeStateEvent.backfilling, BridgeStateEvent.connected] ∧
      BridgeStateEvent.connected ∈ (onConnectLater o).1) ∧
    (∀ o : PostConnectOutcome, o.getSelfOk = false →
      (onConnectLater o).1 = [] ∧ (onConnectLater o).2 = ["Failed to get own info"]) := by
  constructor
  · intro o h
    simp [onConnectLater, h]
  · intro o h
    simp [onConnectLater, h]

/-- Witness for `c4_post_connect_bootstrap`: with `get_self` succeeding and
both best-effort steps failing, "connected" is still reported; with
`get_self` failing, nothing is reported. -/
theorem c4_post_connect_bootstrap_witness :
    BridgeStateEvent.connected ∈
      (onConnectLater { getSelfOk := true, puppetOk := false, syncOk := false }).1 ∧
    (onConnectLater { getSelfOk := false, puppetOk := true, syncOk := true }).1 = [] :=
  ⟨(c4_post_connect_bootstrap.1 { getSelfOk := true, puppetOk := false, syncOk := false }
      rfl).2,
   (c4_post_connect_bootstrap.2 { getSelfOk := false, puppetOk := true, syncOk := true }
      rfl).1⟩

/-- Claim C6: an inbound event without a `group_id` makes the router return
with no dispatch call and no log; an event with a `group_id` whose body has
none of the recognized fields is logged ("Unhandled event type") and
dispatched nowhere.  `on_stream_event` is a total function on events, so
neither case raises. -/
theorem c6_router_drops :
    (∀ evt : GCEvent, evt.groupId = none → on_stream_event evt = ([], false)) ∧
    (∀ (evt : GCEvent) (gid shape : Nat), evt.groupId = some gid →
      evt.body = .unrecognized shape → on_stream_event evt = ([], true)) := by
  constructor
  · intro evt h
    simp [on_stream_event, h]
  · intro evt gid shape hg hb
    simp [on_stream_event, hg, hb]

/-- Witness for `c6_router_drops` at two concrete events. -/
theorem c6_router_drops_witness :
    on_stream_event { groupId := none, type := .messageUpdated,
                      body := .messagePosted 1 } = ([], false) ∧
    on_stream_event { groupId := some 3, type := .otherEventType 7,
                      body := .unrecognized 9 } = ([], true) :=
  ⟨c6_router_drops.1 _ rfl, c6_router_drops.2 _ 3 9 rfl rfl⟩

theorem lookup_populate_isSome_mono :
    ∀ (members : List GCUser) (acc : List (Nat × GCUser)) (k : Nat),
      (acc.lookup k).isSome →
      ((members.foldl (fun c m => (m.userId, m) :: c) acc).lookup k).isSome := by
  intro members
  induction members with
  | nil => intro acc k h; simpa using h
  | cons m ms ih =>
    intro acc k h
    simp only [List.foldl_cons]
    apply ih
    by_cases hk : k == m.userId
    · simp [List.lookup, hk]
    · have hstep : ((m.userId, m) :: acc).lookup k = acc.lookup k := by
        simp [List.lookup, hk]
      rw [hstep]
      exact h

theorem lookup_populate_isSome_of_mem :
    ∀ (members : List GCUser) (acc : List (Nat × GCUser)) (k : Nat),
      (∃ m ∈ members, m.userId = k) →
      ((members.foldl (fun c m => (m.userId, m) :: c) acc).lookup k).isSome := by
  intro members
  induction members with
  | nil => intro acc k h; simp at h
  | cons m ms ih =>
    intro acc k h
    simp only [List.foldl_cons]
    rcases h with ⟨m2, hm2, hid⟩
    rcases List.mem_cons.mp hm2 with heq | hmem
    · subst heq
      apply lookup_populate_isSome_mono
      simp [List.lookup, hid]
    · exact ih _ k ⟨m2, hmem, hid⟩

theorem lookup_populate_none :
    ∀ (members : List GCUser) (acc : List (Nat × GCUser)) (k : Nat),
      acc.lookup k = none → (∀ m ∈ members, m.userId ≠ k) →
      (members.foldl (fun c m => (m.userId, m) :: c) acc).lookup k = none := by
  intro members
  induction members with
  | nil => intro acc k h _; simpa using h
  | cons m ms ih =>
    intro acc k h hne
    simp only [List.foldl_cons]
    apply ih
    · have hmk : (k == m.userId) = false := by
        simp
        exact fun he => (hne m (List.mem_cons_self m ms) he.symm).elim
      simp [List.lookup, hmk, h]
    · exact fun m2 hm2 => hne m2 (List.mem_cons_of_mem m hm2)

theorem buildUserList_ok :
    ∀ (ids : List Nat) (cache : List (Nat × GCUser)),
      (∀ x ∈ ids, (cache.lookup x).isSome) →
      ∃ l, buildUserList cache ids = .ok l ∧ l.length = ids.length := by
  intro ids
  induction ids with
  | nil => intro cache _; exact ⟨[], rfl, rfl⟩
  | cons x xs ih =>
    intro cache h
    obtain ⟨u, hu⟩ := Option.isSome_iff_exists.mp (h x (List.mem_cons_self x xs))
    obtain ⟨l, hl, hlen⟩ := ih cache (fun y hy => h y (List.mem_cons_of_mem x hy))
    refine ⟨u :: l, ?_, by simpa using hlen⟩
    simp [buildUserList, hu, hl, Except.map]

theorem buildUserList_keyerror :
    ∀ (ids : List Nat) (cache : List (Nat × GCUser)) (x : Nat),
      x ∈ ids → cache.lookup x = none →
      ∃ k, buildUserList cache ids = .error (.keyError k) ∧ cache.lookup k = none := by
  intro ids
  induction ids with
  | nil => intro cache x hx; simp at hx
  | cons y ys ih =>
    intro cache x hx hnone
    cases hy : cache.lookup y with
    | none => exact ⟨y, by simp [buildUserList, hy], hy⟩
    | some u =>
      rcases List.mem_cons.mp hx with heq | hmem
      · subst heq; rw [hnone] at hy; cases hy
      · obtain ⟨k, hk, hknone⟩ := ih cache x hmem hnone
        exact ⟨k, by simp [buildUserList, hy, hk, Except.map], hknone⟩

/-- Claim C7: when a user- or group-resolution call does issue the batched
remote fetch and the fetch raises, the error propagates to the caller, the
cache is left exactly as it was (no entry for any id of the failed fetch, no
negative caching), and a subsequent call for the same ids issues the fetch
again with the same missing-id set. -/
theorem c7_fetch_failure_propagates :
    (∀ (users : List (Nat × GCUser)) (ids : List Nat) (err : CacheErr),
      ids.filter (fun x => (users.lookup x).isNone) ≠ [] →
      (get_users users ids (.error err)).newUsers = users ∧
      (get_users users ids (.error err)).result = .error err ∧
      (get_users users ids (.error err)).fetchIssued =
        some (ids.filter (fun x => (users.lookup x).isNone)) ∧
      ∀ f2, (get_users users ids f2).fetchIssued =
        some (ids.filter (fun x => (users.lookup x).isNone))) ∧
    (∀ (groups : List (Nat × GetGroupResponse)) (convId : Nat) (err : CacheErr),
      groups.lookup convId = none →
      (get_group groups convId (.error err)).newGroups = groups ∧
      (get_group groups convId (.error err)).result = .error err ∧
      (get_group groups convId (.error err)).fetchIssued = true ∧
      ∀ f2, (get_group groups convId f2).fetchIssued = true) := by
  constructor
  · intro users ids err h
    have hfalse : (ids.filter (fun x => (users.lookup x).isNone)).isEmpty = false := by
      simpa [List.isEmpty_iff] using h
    refine ⟨?_, ?_, ?_, ?_⟩
    · simp [get_users, hfalse]
    · simp [get_users, hfalse]
    · simp [get_users, hfalse]
    · intro f2
      cases f2 with
      | error e2 => simp [get_users, hfalse]
      | ok members => simp [get_users, hfalse]
  · intro groups convId err h
    refine ⟨?_, ?_, ?_, ?_⟩
    · simp [get_group, h]
    · simp [get_group, h]
    · simp [get_group, h]
    · intro f2
      cases f2 with
      | error e2 => simp [get_group, h]
      | ok resp => simp [get_group, h]

/-- Witness for `c7_fetch_failure_propagates`: an empty cache, one requested
user id and one requested conversation, both fetches raising. -/
theorem c7_fetch_failure_propagates_witness :
    (get_users [] [1] (.error (.fetchError 0))).newUsers = [] ∧
    (get_group [] 7 (.error (.fetchError 0))).result = .error (.fetchError 0) :=
  ⟨(c7_fetch_failure_propagates.1 [] [1] (.fetchError 0) (by decide)).1,
   (c7_fetch_failure_propagates.2 [] 7 (.fetchError 0) rfl).2.1⟩

/-- Claim C9: when some requested id is neither cached nor present in the
fetch response, `get_users` stores every member the fetch did return and then
raises a `KeyError` while building its result list; and whenever every
requested id is cached or returned by the fetch, the call returns one profile
per requested id. -/
theorem c9_get_users_keyerror :
    (∀ (users : List (Nat × GCUser)) (ids : List Nat) (members : List GCUser) (x : Nat),
      x ∈ ids → users.lookup x = none → (∀ m ∈ members, m.userId ≠ x) →
      (∃ k, (get_users users ids (.ok members)).result = .error (.keyError k)) ∧
      (get_users users ids (.ok members)).newUsers =
        members.foldl (fun c m => (m.userId, m) :: c) users ∧
      ∀ m ∈ members,
        (((get_users users ids (.ok members)).newUsers).lookup m.userId).isSome) ∧
    (∀ (users : List (Nat × GCUser)) (ids : List Nat) (members : List GCUser),
      (∀ x ∈ ids, (users.lookup x).isSome ∨ ∃ m ∈ members, m.userId = x) →
      ∃ l, (get_users users ids (.ok members)).result = .ok l ∧
        l.length = ids.length) := by
  constructor
  · intro users ids members x hx hnone hmiss
    have hxfilter : x ∈ ids.filter (fun y => (users.lookup y).isNone) :=
      List.mem_filter.mpr ⟨hx, by simp [hnone]⟩
    have hfalse : (ids.filter (fun y => (users.lookup y).isNone)).isEmpty = false := by
      rcases hf : ids.filter (fun y => (users.lookup y).isNone) with - | ⟨a, l⟩
      · rw [hf] at hxfilter; cases hxfilter
      · rfl
    have hnewusers : (get_users users ids (.ok members)).newUsers =
        members.foldl (fun c m => (m.userId, m) :: c) users := by
      simp [get_users, hfalse]
    refine ⟨?_, hnewusers, ?_⟩
    · have hstill : (members.foldl (fun c m => (m.userId, m) :: c) users).lookup x =
          none := lookup_populate_none members users x hnone hmiss
      obtain ⟨k, hk, -⟩ := buildUserList_keyerror ids _ x hx hstill
      refine ⟨k, ?_⟩
      simp [get_users, hfalse, hk]
    · intro m hm
      rw [hnewusers]
      exact lookup_populate_isSome_of_mem members users m.userId ⟨m, hm, rfl⟩
  · intro users ids members hall
    by_cases hreq : (ids.filter (fun y => (users.lookup y).isNone)).isEmpty
    · have hcached : ∀ x ∈ ids, (users.lookup x).isSome := by
        intro x hx
        by_contra hcon
        have hmem : x ∈ ids.filter (fun y => (users.lookup y).isNone) :=
          List.mem_filter.mpr ⟨hx, by
            rw [Option.isNone_iff_eq_none]
            exact Option.not_isSome_iff_eq_none.mp hcon⟩
        rw [List.isEmpty_iff.mp hreq] at hmem
        cases hmem
      obtain ⟨l, hl, hlen⟩ := buildUserList_ok ids users hcached
      refine ⟨l, ?_, hlen⟩
      simp [get_users, hreq, hl]
    · have hfalse : (ids.filter (fun y => (users.lookup y).isNone)).isEmpty = false :=
        Bool.not_eq_true _ ▸ Bool.eq_false_iff.mpr hreq
      have hallcached :
          ∀ x ∈ ids,
            (((members.foldl (fun c m => (m.userId, m) :: c) users)).lookup x).isSome := by
        intro x hx
        rcases hall x hx with hsome | hmem
        · exact lookup_populate_isSome_mono members users x hsome
        · exact lookup_populate_isSome_of_mem members users x hmem
      obtain ⟨l, hl, hlen⟩ := buildUserList_ok ids _ hallcached
      refine ⟨l, ?_, hlen⟩
      simp [get_users, hfalse, hl]

/-- Witness for `c9_get_users_keyerror`: requesting id 5 from an empty cache
while the fetch returns only a member with id 3 caches that member and raises
`KeyError`; requesting id 3 under the same fetch succeeds with one profile. -/
theorem c9_get_users_keyerror_witness :
    (∃ k, (get_users [] [5] (.ok [{ userId := 3, payload := 0 }])).result =
      .error (.keyError k)) ∧
    ∃ l, (get_users [] [3] (.ok [{ userId := 3, payload := 0 }])).result = .ok l ∧
      l.length = 1 :=
  ⟨(c9_get_users_keyerror.1 [] [5] [{ userId := 3, payload := 0 }] 5 (by decide) rfl
      (by decide)).1,
   c9_get_users_keyerror.2 [] [3] [{ userId := 3, payload := 0 }]
     (by intro x hx; simp at hx; subst hx; exact Or.inr ⟨{ userId := 3, payload := 0 }, by simp, rfl⟩)⟩

theorem userInv_init (cache0 : List Nat) (idss : List (List Nat)) :
    UserInv (initUserSys cache0 idss) := by
  refine ⟨?_, ?_, ?_, ?_⟩
  · intro i pc hpc hholds
    simp only [initUserSys, List.getElem?_map] at hpc
    rcases Option.map_eq_some'.mp hpc with ⟨ids, -, hpc2⟩
    rw [← hpc2] at hholds
    simp [holdsUsersLock] at hholds
  · intro i r hr
    exfalso
    rcases hr with h | h <;>
    · simp only [initUserSys, List.getElem?_map] at h
      rcases Option.map_eq_some'.mp h with ⟨ids, -, h2⟩
      exact UserThreadPc.noConfusion h2
  · intro ev hev
    simp [initUserSys] at hev
  · simp [initUserSys]

theorem userInv_step {s s2 : UserCacheSys} (hinv : UserInv s) (hstep : UStep s s2) :
    UserInv s2 := by
  obtain ⟨hA, hB, hC, hF⟩ := hinv
  cases hstep with
  | acquire i ids h1 h2 =>
    obtain ⟨hilen, -⟩ := List.getElem?_eq_some.mp h1
    refine ⟨?_, ?_, ?_, ?_⟩
    · intro j pc hpc hholds
      dsimp only at hpc ⊢
      by_cases hji : j = i
      · subst hji; rfl
      · rw [List.getElem?_set_ne (Ne.symm hji)] at hpc
        have hlj := hA j pc hpc hholds
        rw [h2] at hlj
        exact Option.noConfusion hlj
    · intro j r hj x hx
      dsimp only at hj ⊢
      by_cases hji : j = i
      · subst hji
        rw [List.getElem?_set_self hilen] at hj
        rcases hj with hj | hj
        · injection hj with hj
          injection hj with hj
          rw [← hj] at hx
          have := (List.mem_filter.mp hx).2
          simpa using this
        · injection hj with hj
          exact UserThreadPc.noConfusion hj
      · rw [List.getElem?_set_ne (Ne.symm hji)] at hj
        exact hB j r hj x hx
    · intro ev hev
      dsimp only at hev ⊢
      rcases hC ev hev with hfif | hcached
      · by_cases hei : ev.1 = i
        · exfalso
          rw [hei] at hfif
          have hcontra := h1.symm.trans hfif
          injection hcontra with hc
          exact UserThreadPc.noConfusion hc
        · left
          rw [List.getElem?_set_ne (Ne.symm hei)]
          exact hfif
      · right; exact hcached
    · exact hF
  | startFetch i r h1 h2 =>
    obtain ⟨hilen, -⟩ := List.getElem?_eq_some.mp h1
    refine ⟨?_, ?_, ?_, ?_⟩
    · intro j pc hpc hholds
      dsimp only at hpc ⊢
      by_cases hji : j = i
      · subst hji
        exact hA _ (UserThreadPc.inCS r) h1 rfl
      · rw [List.getElem?_set_ne (Ne.symm hji)] at hpc
        exact hA j pc hpc hholds
    · intro j r2 hj x hx
      dsimp only at hj ⊢
      by_cases hji : j = i
      · subst hji
        rw [List.getElem?_set_self hilen] at hj
        rcases hj with hj | hj
        · injection hj with hj
          exact UserThreadPc.noConfusion hj
        · injection hj with hj
          injection hj with hj
          exact hB _ r (Or.inl h1) x (by rw [hj]; exact hx)
      · rw [List.getElem?_set_ne (Ne.symm hji)] at hj
        exact hB j r2 hj x hx
    · intro ev hev
      dsimp only at hev ⊢
      rcases List.mem_append.mp hev with hold | hnew
      · rcases hC ev hold with hfif | hcached
        · by_cases hei : ev.1 = i
          · exfalso
            rw [hei] at hfif
            have hcontra := h1.symm.trans hfif
            injection hcontra with hc
            exact UserThreadPc.noConfusion hc
          · left
            rw [List.getElem?_set_ne (Ne.symm hei)]
            exact hfif
        · right; exact hcached
      · have hev2 : ev = (i, r) := List.mem_singleton.mp hnew
        subst hev2
        left
        exact List.getElem?_set_self hilen
    · dsimp only
      rw [List.pairwise_append]
      refine ⟨hF, List.pairwise_singleton _ _, ?_⟩
      intro a ha b hb x hxa
      have hb2 : b = (i, r) := List.mem_singleton.mp hb
      subst hb2
      rcases hC a ha with hfif | hcached
      · exfalso
        have hl1 := hA a.1 _ hfif rfl
        have hl2 := hA i _ h1 rfl
        have hai : a.1 = i := Option.some.inj (hl1.symm.trans hl2)
        rw [hai] at hfif
        have hcontra := h1.symm.trans hfif
        injection hcontra with hc
        exact UserThreadPc.noConfusion hc
      · intro hxr
        exact absurd (hcached x hxa) (hB i r (Or.inl h1) x hxr)
  | endFetch i r h1 =>
    obtain ⟨hilen, -⟩ := List.getElem?_eq_some.mp h1
    refine ⟨?_, ?_, ?_, ?_⟩
    · intro j pc hpc hholds
      dsimp only at hpc ⊢
      by_cases hji : j = i
      · subst hji
        exact hA _ (UserThreadPc.fetchInFlight r) h1 rfl
      · rw [List.getElem?_set_ne (Ne.symm hji)] at hpc
        exact hA j pc hpc hholds
    · intro j r2 hj x hx
      dsimp only at hj ⊢
      exfalso
      by_cases hji : j = i
      · subst hji
        rw [List.getElem?_set_self hilen] at hj
        rcases hj with hj | hj <;>
        · injection hj with hj
          exact UserThreadPc.noConfusion hj
      · rw [List.getElem?_set_ne (Ne.symm hji)] at hj
        have hl2 := hA i _ h1 rfl
        have hl1 : s.lock = some j := by
          rcases hj with hj | hj
          · exact hA j _ hj rfl
          · exact hA j _ hj rfl
        have hcomb := hl2.symm.trans hl1
        injection hcomb with hcomb
        exact hji hcomb.symm
    · intro ev hev
      dsimp only at hev ⊢
      rcases hC ev hev with hfif | hcached
      · by_cases hei : ev.1 = i
        · right
          rw [hei] at hfif
          have hcomb := h1.symm.trans hfif
          injection hcomb with hc
          injection hc with hc
          intro x hx
          rw [← hc] at hx
          exact List.mem_append.mpr (Or.inr hx)
        · exfalso
          have hl1 := hA ev.1 _ hfif rfl
          have hl2 := hA i _ h1 rfl
          have hcomb := hl1.symm.trans hl2
          injection hcomb with hcomb
          exact hei hcomb
      · right
        intro x hx
        exact List.mem_append.mpr (Or.inl (hcached x hx))
    · exact hF
  | skipFetch i h1 =>
    obtain ⟨hilen, -⟩ := List.getElem?_eq_some.mp h1
    refine ⟨?_, ?_, ?_, ?_⟩
    · intro j pc hpc hholds
      dsimp only at hpc ⊢
      exfalso
      by_cases hji : j = i
      · subst hji
        rw [List.getElem?_set_self hilen] at hpc
        injection hpc with hpc
        rw [← hpc] at hholds
        simp [holdsUsersLock] at hholds
      · rw [List.getElem?_set_ne (Ne.symm hji)] at hpc
        have hl1 := hA j pc hpc hholds
        have hl2 := hA i _ h1 rfl
        have hcomb := hl1.symm.trans hl2
        injection hcomb with hcomb
        exact hji hcomb
    · intro j r2 hj x hx
      dsimp only at hj ⊢
      by_cases hji : j = i
      · subst hji
        rw [List.getElem?_set_self hilen] at hj
        exfalso
        rcases hj with hj | hj <;>
        · injection hj with hj
          exact UserThreadPc.noConfusion hj
      · rw [List.getElem?_set_ne (Ne.symm hji)] at hj
        exact hB j r2 hj x hx
    · intro ev hev
      dsimp only at hev ⊢
      rcases hC ev hev with hfif | hcached
      · by_cases hei : ev.1 = i
        · exfalso
          rw [hei] at hfif
          have hcontra := h1.symm.trans hfif
          injection hcontra with hc
          exact UserThreadPc.noConfusion hc
        · left
          rw [List.getElem?_set_ne (Ne.symm hei)]
          exact hfif
      · right; exact hcached
    · exact hF
  | release i h1 =>
    obtain ⟨hilen, -⟩ := List.getElem?_eq_some.mp h1
    refine ⟨?_, ?_, ?_, ?_⟩
    · intro j pc hpc hholds
      dsimp only at hpc ⊢
      exfalso
      by_cases hji : j = i
      · subst hji
        rw [List.getElem?_set_self hilen] at hpc
        injection hpc with hpc
        rw [← hpc] at hholds
        simp [holdsUsersLock] at hholds
      · rw [List.getElem?_set_ne (Ne.symm hji)] at hpc
        have hl1 := hA j pc hpc hholds
        have hl2 := hA i _ h1 rfl
        have hcomb := hl1.symm.trans hl2
        injection hcomb with hcomb
        exact hji hcomb
    · intro j r2 hj x hx
      dsimp only at hj ⊢
      by_cases hji : j = i
      · subst hji
        rw [List.getElem?_set_self hilen] at hj
        exfalso
        rcases hj with hj | hj <;>
        · injection hj with hj
          exact UserThreadPc.noConfusion hj
      · rw [List.getElem?_set_ne (Ne.symm hji)] at hj
        exact hB j r2 hj x hx
    · intro ev hev
      dsimp only at hev ⊢
      rcases hC ev hev with hfif | hcached
      · by_cases hei : ev.1 = i
        · exfalso
          rw [hei] at hfif
          have hcontra := h1.symm.trans hfif
          injection hcontra with hc
          exact UserThreadPc.noConfusion hc
        · left
          rw [List.getElem?_set_ne (Ne.symm hei)]
          exact hfif
      · right; exact hcached
    · exact hF

theorem userInv_reachable {s0 s : UserCacheSys} (h : UReachable s0 s)
    (h0 : UserInv s0) : UserInv s := by
  induction h with
  | refl => exact h0
  | tail hsteps hstep ih => exact userInv_step ih hstep

theorem groupInv_init (cache0 : List Nat) (convs : List Nat) :
    GroupInv (initGroupSys cache0 convs) := by
  refine ⟨?_, ?_, ?_, ?_⟩
  · intro i pc hpc hholds
    simp only [initGroupSys, List.getElem?_map] at hpc
    rcases Option.map_eq_some'.mp hpc with ⟨c, -, hpc2⟩
    rw [← hpc2] at hholds
    simp [holdsGroupsLock] at hholds
  · intro i c h
    exfalso
    simp only [initGroupSys, List.getElem?_map] at h
    rcases Option.map_eq_some'.mp h with ⟨c2, -, h2⟩
    exact GroupThreadPc.noConfusion h2
  · intro ev hev
    simp [initGroupSys] at hev
  · simp [initGroupSys]

theorem groupInv_step {s s2 : GroupCacheSys} (hinv : GroupInv s) (hstep : GStep s s2) :
    GroupInv s2 := by
  obtain ⟨hA, hB, hC, hF⟩ := hinv
  cases hstep with
  | fastHit i c h1 h2 =>
    obtain ⟨hilen, -⟩ := List.getElem?_eq_some.mp h1
    refine ⟨?_, ?_, ?_, ?_⟩
    · intro j pc hpc hholds
      dsimp only at hpc ⊢
      by_cases hji : j = i
      · subst hji
        rw [List.getElem?_set_self hilen] at hpc
        injection hpc with hpc
        rw [← hpc] at hholds
        simp [holdsGroupsLock] at hholds
      · rw [List.getElem?_set_ne (Ne.symm hji)] at hpc
        exact hA j pc hpc hholds
    · intro j c2 hj
      dsimp only at hj ⊢
      by_cases hji : j = i
      · subst hji
        rw [List.getElem?_set_self hilen] at hj
        injection hj with hj
        exact GroupThreadPc.noConfusion hj
      · rw [List.getElem?_set_ne (Ne.symm hji)] at hj
        exact hB j c2 hj
    · intro ev hev
      dsimp only at hev ⊢
      rcases hC ev hev with hfif | hcached
      · by_cases hei : ev.1 = i
        · exfalso
          rw [hei] at hfif
          have hcontra := h1.symm.trans hfif
          injection hcontra with hc
          exact GroupThreadPc.noConfusion hc
        · left
          rw [List.getElem?_set_ne (Ne.symm hei)]
          exact hfif
      · right; exact hcached
    · exact hF
  | fastMiss i c h1 h2 =>
    obtain ⟨hilen, -⟩ := List.getElem?_eq_some.mp h1
    refine ⟨?_, ?_, ?_, ?_⟩
    · intro j pc hpc hholds
      dsimp only at hpc ⊢
      by_cases hji : j = i
      · subst hji
        rw [List.getElem?_set_self hilen] at hpc
        injection hpc with hpc
        rw [← hpc] at hholds
        simp [holdsGroupsLock] at hholds
      · rw [List.getElem?_set_ne (Ne.symm hji)] at hpc
        exact hA j pc hpc hholds
    · intro j c2 hj
      dsimp only at hj ⊢
      by_cases hji : j = i
      · subst hji
        rw [List.getElem?_set_self hilen] at hj
        injection hj with hj
        exact GroupThreadPc.noConfusion hj
      · rw [List.getElem?_set_ne (Ne.symm hji)] at hj
        exact hB j c2 hj
    · intro ev hev
      dsimp only at hev ⊢
      rcases hC ev hev with hfif | hcached
      · by_cases hei : ev.1 = i
        · exfalso
          rw [hei] at hfif
          have hcontra := h1.symm.trans hfif
          injection hcontra with hc
          exact GroupThreadPc.noConfusion hc
        · left
          rw [List.getElem?_set_ne (Ne.symm hei)]
          exact hfif
      · right; exact hcached
    · exact hF
  | gacquire i c h1 h2 =>
    obtain ⟨hilen, -⟩ := List.getElem?_eq_some.mp h1
    refine ⟨?_, ?_, ?_, ?_⟩
    · intro j pc hpc hholds
      dsimp only at hpc ⊢
      by_cases hji : j = i
      · subst hji; rfl
      · rw [List.getElem?_set_ne (Ne.symm hji)] at hpc
        have hlj := hA j pc hpc hholds
        rw [h2] at hlj
        exact Option.noConfusion hlj
    · intro j c2 hj
      dsimp only at hj ⊢
      by_cases hji : j = i
      · subst hji
        rw [List.getElem?_set_self hilen] at hj
        injection hj with hj
        exact GroupThreadPc.noConfusion hj
      · rw [List.getElem?_set_ne (Ne.symm hji)] at hj
        exact hB j c2 hj
    · intro ev hev
      dsimp only at hev ⊢
      rcases hC ev hev with hfif | hcached
      · by_cases hei : ev.1 = i
        · exfalso
          rw [hei] at hfif
          have hcontra := h1.symm.trans hfif
          injection hcontra with hc
          exact GroupThreadPc.noConfusion hc
        · left
          rw [List.getElem?_set_ne (Ne.symm hei)]
          exact hfif
      · right; exact hcached
    · exact hF
  | lockedHit i c h1 h2 =>
    obtain ⟨hilen, -⟩ := List.getElem?_eq_some.mp h1
    refine ⟨?_, ?_, ?_, ?_⟩
    · intro j pc hpc hholds
      dsimp only at hpc ⊢
      exfalso
      by_cases hji : j = i
      · subst hji
        rw [List.getElem?_set_self hilen] at hpc
        injection hpc with hpc
        rw [← hpc] at hholds
        simp [holdsGroupsLock] at hholds
      · rw [List.getElem?_set_ne (Ne.symm hji)] at hpc
        have hl1 := hA j pc hpc hholds
        have hl2 := hA i _ h1 rfl
        exact hji (Option.some.inj (hl1.symm.trans hl2))
    · intro j c2 hj
      dsimp only at hj ⊢
      by_cases hji : j = i
      · subst hji
        rw [List.getElem?_set_self hilen] at hj
        injection hj with hj
        exact GroupThreadPc.noConfusion hj
      · rw [List.getElem?_set_ne (Ne.symm hji)] at hj
        exact hB j c2 hj
    · intro ev hev
      dsimp only at hev ⊢
      rcases hC ev hev with hfif | hcached
      · by_cases hei : ev.1 = i
        · exfalso
          rw [hei] at hfif
          have hcontra := h1.symm.trans hfif
          injection hcontra with hc
          exact GroupThreadPc.noConfusion hc
        · left
          rw [List.getElem?_set_ne (Ne.symm hei)]
          exact hfif
      · right; exact hcached
    · exact hF
  | gstartFetch i c h1 h2 =>
    obtain ⟨hilen, -⟩ := List.getElem?_eq_some.mp h1
    refine ⟨?_, ?_, ?_, ?_⟩
    · intro j pc hpc hholds
      dsimp only at hpc ⊢
      by_cases hji : j = i
      · subst hji
        exact hA _ (GroupThreadPc.ginCS c) h1 rfl
      · rw [List.getElem?_set_ne (Ne.symm hji)] at hpc
        exact hA j pc hpc hholds
    · intro j c2 hj
      dsimp only at hj ⊢
      by_cases hji : j = i
      · subst hji
        rw [List.getElem?_set_self hilen] at hj
        injection hj with hj
        injection hj with hj
        rw [← hj]
        exact h2
      · rw [List.getElem?_set_ne (Ne.symm hji)] at hj
        exact hB j c2 hj
    · intro ev hev
      dsimp only at hev ⊢
      rcases List.mem_append.mp hev with hold | hnew
      · rcases hC ev hold with hfif | hcached
        · by_cases hei : ev.1 = i
          · exfalso
            rw [hei] at hfif
            have hcontra := h1.symm.trans hfif
            injection hcontra with hc
            exact GroupThreadPc.noConfusion hc
          · left
            rw [List.getElem?_set_ne (Ne.symm hei)]
            exact hfif
        · right; exact hcached
      · have hev2 : ev = (i, c) := List.mem_singleton.mp hnew
        subst hev2
        left
        exact List.getElem?_set_self hilen
    · dsimp only
      rw [List.pairwise_append]
      refine ⟨hF, List.pairwise_singleton _ _, ?_⟩
      intro a ha b hb
      have hb2 : b = (i, c) := List.mem_singleton.mp hb
      subst hb2
      rcases hC a ha with hfif | hcached
      · exfalso
        have hl1 := hA a.1 _ hfif rfl
        have hl2 := hA i _ h1 rfl
        have hai : a.1 = i := Option.some.inj (hl1.symm.trans hl2)
        rw [hai] at hfif
        have hcontra := h1.symm.trans hfif
        injection hcontra with hc
        exact GroupThreadPc.noConfusion hc
      · intro heq
        rw [heq] at hcached
        exact h2 hcached
  | gendFetch i c h1 =>
    obtain ⟨hilen, -⟩ := List.getElem?_eq_some.mp h1
    refine ⟨?_, ?_, ?_, ?_⟩
    · intro j pc hpc hholds
      dsimp only at hpc ⊢
      by_cases hji : j = i
      · subst hji
        exact hA _ (GroupThreadPc.gfetchInFlight c) h1 rfl
      · rw [List.getElem?_set_ne (Ne.symm hji)] at hpc
        exact hA j pc hpc hholds
    · intro j c2 hj
      dsimp only at hj ⊢
      exfalso
      by_cases hji : j = i
      · subst hji
        rw [List.getElem?_set_self hilen] at hj
        injection hj with hj
        exact GroupThreadPc.noConfusion hj
      · rw [List.getElem?_set_ne (Ne.symm hji)] at hj
        have hl1 := hA j _ hj rfl
        have hl2 := hA i _ h1 rfl
        exact hji (Option.some.inj (hl1.symm.trans hl2))
    · intro ev hev
      dsimp only at hev ⊢
      rcases hC ev hev with hfif | hcached
      · by_cases hei : ev.1 = i
        · right
          rw [hei] at hfif
          have hcomb := h1.symm.trans hfif
          injection hcomb with hc
          injection hc with hc
          rw [← hc]
          exact List.mem_append.mpr (Or.inr (List.mem_singleton.mpr rfl))
        · exfalso
          have hl1 := hA ev.1 _ hfif rfl
          have hl2 := hA i _ h1 rfl
          exact hei (Option.some.inj (hl1.symm.trans hl2))
      · right
        exact List.mem_append.mpr (Or.inl hcached)
    · exact hF
  | grelease i h1 =>
    obtain ⟨hilen, -⟩ := List.getElem?_eq_some.mp h1
    refine ⟨?_, ?_, ?_, ?_⟩
    · intro j pc hpc hholds
      dsimp only at hpc ⊢
      exfalso
      by_cases hji : j = i
      · subst hji
        rw [List.getElem?_set_self hilen] at hpc
        injection hpc with hpc
        rw [← hpc] at hholds
        simp [holdsGroupsLock] at hholds
      · rw [List.getElem?_set_ne (Ne.symm hji)] at hpc
        have hl1 := hA j pc hpc hholds
        have hl2 := hA i _ h1 rfl
        exact hji (Option.some.inj (hl1.symm.trans hl2))
    · intro j c2 hj
      dsimp only at hj ⊢
      by_cases hji : j = i
      · subst hji
        rw [List.getElem?_set_self hilen] at hj
        exfalso
        injection hj with hj
        exact GroupThreadPc.noConfusion hj
      · rw [List.getElem?_set_ne (Ne.symm hji)] at hj
        exact hB j c2 hj
    · intro ev hev
      dsimp only at hev ⊢
      rcases hC ev hev with hfif | hcached
      · by_cases hei : ev.1 = i
        · exfalso
          rw [hei] at hfif
          have hcontra := h1.symm.trans hfif
          injection hcontra with hc
          exact GroupThreadPc.noConfusion hc
        · left
          rw [List.getElem?_set_ne (Ne.symm hei)]
          exact hfif
      · right; exact hcached
    · exact hF

theorem groupInv_reachable {s0 s : GroupCacheSys} (h : GReachable s0 s)
    (h0 : GroupInv s0) : GroupInv s := by
  induction h with
  | refl => exact h0
  | tail hsteps hstep ih => exact groupInv_step ih hstep

theorem countP_le_one_of_pairwise {α : Type} (p : α → Bool) :
    ∀ l : List α, List.Pairwise (fun a b => p a = true → p b = false) l →
      l.countP p ≤ 1 := by
  intro l
  induction l with
  | nil => intro _; simp
  | cons a l ih =>
    intro hp
    rcases List.pairwise_cons.mp hp with ⟨ha, hl⟩
    rw [List.countP_cons]
    by_cases hpa : p a = true
    · have hzero : l.countP p = 0 :=
        List.countP_eq_zero.mpr fun b hb => by rw [ha b hb hpa]; simp
      simp [hzero, hpa]
    · have hle := ih hl
      simp [hpa]
      omega

/-- Claim C5: in every interleaving of concurrent `get_users` calls of one
Session, each user id occurs in at most one issued batched fetch, and at most
one batched fetch is in flight at any time; likewise, in every interleaving
of concurrent `get_group` calls, each conversation id is fetched at most
once, and at most one group fetch is in flight at any time. -/
theorem c5_no_duplicate_fetch :
    (∀ (cache0 : List Nat) (idss : List (List Nat)) (s : UserCacheSys),
      UReachable (initUserSys cache0 idss) s →
      (∀ x : Nat, s.history.countP (fun ev => ev.2.contains x) ≤ 1) ∧
      (∀ (i j : Nat) (ri rj : List Nat),
        s.threads[i]? = some (UserThreadPc.fetchInFlight ri) →
        s.threads[j]? = some (UserThreadPc.fetchInFlight rj) → i = j)) ∧
    (∀ (cache0 convs : List Nat) (s : GroupCacheSys),
      GReachable (initGroupSys cache0 convs) s →
      (∀ c : Nat, s.history.countP (fun ev => ev.2 == c) ≤ 1) ∧
      (∀ (i j ci cj : Nat),
        s.threads[i]? = some (GroupThreadPc.gfetchInFlight ci) →
        s.threads[j]? = some (GroupThreadPc.gfetchInFlight cj) → i = j)) := by
  constructor
  · intro cache0 idss s hreach
    obtain ⟨hA, hB, hC, hF⟩ := userInv_reachable hreach (userInv_init cache0 idss)
    constructor
    · intro x
      apply countP_le_one_of_pairwise
      refine hF.imp ?_
      intro a b hab hpa
      have hxa : x ∈ a.2 := by simpa using hpa
      have hxb : x ∉ b.2 := hab x hxa
      simpa using hxb
    · intro i j ri rj hi hj
      have hli := hA i _ hi rfl
      have hlj := hA j _ hj rfl
      exact Option.some.inj (hli.symm.trans hlj)
  · intro cache0 convs s hreach
    obtain ⟨hA, hB, hC, hF⟩ := groupInv_reachable hreach (groupInv_init cache0 convs)
    constructor
    · intro c
      apply countP_le_one_of_pairwise
      refine hF.imp ?_
      intro a b hab hpa
      have hac : a.2 = c := by simpa using hpa
      have hbc : b.2 ≠ c := fun h => hab (hac.trans h.symm)
      simpa using hbc
    · intro i j ci cj hi hj
      have hli := hA i _ hi rfl
      have hlj := hA j _ hj rfl
      exact Option.some.inj (hli.symm.trans hlj)

/-- Witness for `c5_no_duplicate_fetch`: a concrete interleaving in which one
`get_users` coroutine acquires the lock and issues its fetch for ids 1 and 2,
and one in which a `get_group` coroutine misses the fast path, acquires the
lock and issues its fetch for conversation 7; each id occurs in at most one
fetch of the respective history. -/
theorem c5_no_duplicate_fetch_witness :
    ({ lock := some 0, cacheKeys := [],
       threads := [UserThreadPc.fetchInFlight [1, 2]],
       history := [(0, [1, 2])] } : UserCacheSys).history.countP
      (fun ev => ev.2.contains 1) ≤ 1 ∧
    ({ lock := some 0, cacheKeys := [],
       threads := [GroupThreadPc.gfetchInFlight 7],
       history := [(0, 7)] } : GroupCacheSys).history.countP
      (fun ev => ev.2 == 7) ≤ 1 := by
  constructor
  · have hstep1 : UStep (initUserSys [] [[1, 2]])
        { lock := some 0, cacheKeys := [],
          threads := [UserThreadPc.inCS [1, 2]], history := [] } :=
      UStep.acquire _ 0 [1, 2] rfl rfl
    have hstep2 : UStep
        { lock := some 0, cacheKeys := [],
          threads := [UserThreadPc.inCS [1, 2]], history := [] }
        { lock := some 0, cacheKeys := [],
          threads := [UserThreadPc.fetchInFlight [1, 2]],
          history := [(0, [1, 2])] } :=
      UStep.startFetch _ 0 [1, 2] rfl (by decide)
    exact (c5_no_duplicate_fetch.1 [] [[1, 2]] _
      (Relation.ReflTransGen.tail
        (Relation.ReflTransGen.tail Relation.ReflTransGen.refl hstep1) hstep2)).1 1
  · have hstep1 : GStep (initGroupSys [] [7])
        { lock := none, cacheKeys := [],
          threads := [GroupThreadPc.waitingLock 7], history := [] } :=
      GStep.fastMiss _ 0 7 rfl (List.not_mem_nil 7)
    have hstep2 : GStep
        { lock := none, cacheKeys := [],
          threads := [GroupThreadPc.waitingLock 7], history := [] }
        { lock := some 0, cacheKeys := [],
          threads := [GroupThreadPc.ginCS 7], history := [] } :=
      GStep.gacquire _ 0 7 rfl rfl
    have hstep3 : GStep
        { lock := some 0, cacheKeys := [],
          threads := [GroupThreadPc.ginCS 7], history := [] }
        { lock := some 0, cacheKeys := [],
          threads := [GroupThreadPc.gfetchInFlight 7],
          history := [(0, 7)] } :=
      GStep.gstartFetch _ 0 7 rfl (List.not_mem_nil 7)
    exact (c5_no_duplicate_fetch.2 [] [7] _
      (Relation.ReflTransGen.tail
        (Relation.ReflTransGen.tail
          (Relation.ReflTransGen.tail Relation.ReflTransGen.refl hstep1) hstep2)
        hstep3)).1 7
